import Mathlib

/-!
Shallow embedding of the `whatsapp-mcp` Go bridge core: the validation
layer (`whatsapp-bridge/pkg/validation/input.go`), the chat classifiers
(`whatsapp-bridge/pkg/database/models.go`) and the SQLite-backed store
(`whatsapp-bridge/pkg/database`, reachable through
`whatsapp-bridge/pkg/config/config.go` in the packaged sources).

Strings are modelled as Lean `String` / `List Char`; the inputs relevant
to the claims are ASCII, so Go's byte indexing coincides with character
indexing. A Go function returning a `nil` error is modelled as `true`
(validators) or `Except.ok` (store operations and path validation, where
distinct error causes matter).
-/

namespace WaBridge

/-- Go regex `^\d{10,15}@s\.whatsapp\.net$` (`phoneJIDPattern` in
`pkg/validation/input.go`): a maximal run of 10–15 ASCII digits followed
by exactly the suffix `@s.whatsapp.net`. -/
def phoneJIDMatch (s : List Char) : Bool :=
  let d := s.takeWhile Char.isDigit
  let r := s.dropWhile Char.isDigit
  decide (10 ≤ d.length) && decide (d.length ≤ 15) && decide (r = "@s.whatsapp.net".data)

/-- Go regex `^\d+-\d+@g\.us$` (`groupJIDPattern`): one or more digits,
a hyphen, one or more digits, then exactly `@g.us`. -/
def groupJIDMatch (s : List Char) : Bool :=
  let d1 := s.takeWhile Char.isDigit
  let r1 := s.dropWhile Char.isDigit
  match r1 with
  | '-' :: r2 =>
      let d2 := r2.takeWhile Char.isDigit
      let r3 := r2.dropWhile Char.isDigit
      decide (1 ≤ d1.length) && decide (1 ≤ d2.length) && decide (r3 = "@g.us".data)
  | _ => false

/-- Go regex `^\d{10,15}$` (`phonePattern`): 10–15 ASCII digits. -/
def phoneMatch (s : List Char) : Bool :=
  s.all Char.isDigit && decide (10 ≤ s.length) && decide (s.length ≤ 15)

/-- Go `ValidateJID` from `pkg/validation/input.go`: rejects the empty
string, otherwise accepts exactly the strings matched by
`phoneJIDPattern` or `groupJIDPattern`.  `true` models a `nil` error. -/
def ValidateJID (jid : String) : Bool :=
  if jid = "" then false
  else phoneJIDMatch jid.data || groupJIDMatch jid.data

/-- Go `ValidatePhoneNumber` from `pkg/validation/input.go`. -/
def ValidatePhoneNumber (phone : String) : Bool :=
  if phone = "" then false
  else phoneMatch phone.data

/-- Go `ValidateRecipient` from `pkg/validation/input.go`: rejects the
empty string, then tries the phone-number form, then the JID form. -/
def ValidateRecipient (recipient : String) : Bool :=
  if recipient = "" then false
  else ValidatePhoneNumber recipient || ValidateJID recipient

/-- Split a character list on `'/'`; the accumulator holds the current
segment reversed.  `splitSlash "a/b"` is `[['a'], ['b']]`,
`splitSlash "/a"` is `[[], ['a']]`. -/
def splitSlashAux : List Char → List Char → List (List Char)
  | [], acc => [acc.reverse]
  | c :: rest, acc =>
      if c = '/' then acc.reverse :: splitSlashAux rest []
      else splitSlashAux rest (c :: acc)

/-- Split a path into its `'/'`-separated segments. -/
def splitSlash (p : List Char) : List (List Char) := splitSlashAux p []

/-- Go `filepath.IsAbs` on Unix: the path starts with `'/'`. -/
def isAbsPath (p : List Char) : Bool :=
  match p with
  | '/' :: _ => true
  | _ => false

/-- Segment processing of Go `path.Clean` (the Unix `filepath.Clean`):
empty and `.` segments are dropped; a `..` segment pops the previous
kept segment, except that on a rooted path a `..` at the root is
dropped, and on an unrooted path leading `..` segments accumulate.
`acc` holds the kept segments in reverse. -/
def cleanSegs (rooted : Bool) : List (List Char) → List (List Char) → List (List Char)
  | acc, [] => acc.reverse
  | acc, c :: cs =>
      if c = [] ∨ c = ['.'] then cleanSegs rooted acc cs
      else if c = ['.', '.'] then
        match acc with
        | [] => if rooted then cleanSegs rooted [] cs else cleanSegs rooted [c] cs
        | a :: as =>
            if a = ['.', '.'] then cleanSegs rooted (c :: acc) cs
            else cleanSegs rooted as cs
      else cleanSegs rooted (c :: acc) cs

/-- Join segments with `'/'`. -/
def joinSegs : List (List Char) → List Char
  | [] => []
  | [s] => s
  | s :: rest => s ++ '/' :: joinSegs rest

/-- Go `filepath.Clean` on Unix, via its segment semantics: shortest
lexically equivalent path — `""` becomes `"."`, repeated slashes and
`.` segments vanish, `..` eats the preceding segment (never escaping
the root of a rooted path), and an empty result is `"/"` (rooted) or
`"."`. -/
def cleanPath (p : List Char) : List Char :=
  if p = [] then ['.']
  else
    let rooted := isAbsPath p
    let segs := cleanSegs rooted [] (splitSlash p)
    if rooted then '/' :: joinSegs segs
    else if segs = [] then ['.']
    else joinSegs segs

/-- Go `filepath.Abs` on Unix, with the working directory made an
explicit parameter (`os.Getwd` is the only environment access): an
absolute path is returned cleaned, a relative path is joined onto the
working directory and cleaned. -/
def absPath (cwd p : List Char) : List Char :=
  if isAbsPath p then cleanPath p
  else cleanPath (cwd ++ '/' :: p)

/-- Does the character list contain the two-character substring `..`
(Go `strings.Contains(s, "..")`)? -/
def hasDotDot : List Char → Bool
  | [] => false
  | [_] => false
  | a :: b :: rest => (a = '.' && b = '.') || hasDotDot (b :: rest)

/-- The distinct failure causes of `ValidateFilePath`. -/
inductive PathError where
  | emptyPath
  | traversal
  | nullByte
deriving DecidableEq

/-- Go `ValidateFilePath` from `pkg/validation/input.go`: rejects the
empty path; cleans the path and rejects it if the cleaned form contains
the substring `..`; resolves the cleaned path to an absolute form
against the working directory `cwd`; rejects the result if it contains
a null byte.  No filesystem state beyond `cwd` is consulted. -/
def ValidateFilePath (cwd : List Char) (path : List Char) : Except PathError Unit :=
  if path = [] then .error .emptyPath
  else
    let c := cleanPath path
    if hasDotDot c then .error .traversal
    else
      let a := absPath cwd c
      if a.contains '\x00' then .error .nullByte
      else .ok ()

/-- Struct `Chat` from `pkg/database/models.go`.  `last_message_time` is kept
as an integer timestamp; SQLite compares the stored values totally. -/
structure Chat where
  JID : String
  Name : String
  LastMessageTime : Int
deriving DecidableEq

/-- Method `Chat.IsGroup` from `pkg/database/models.go`: Go
`len(c.JID) > 6 && c.JID[len(c.JID)-6:] == "@g.us"` — the final six
bytes are compared against the five-byte literal `"@g.us"`. -/
def Chat.IsGroup (c : Chat) : Bool :=
  decide (6 < c.JID.length) && decide (c.JID.data.drop (c.JID.length - 6) = "@g.us".data)

/-- Method `Chat.IsContact` from `pkg/database/models.go`: Go
`len(c.JID) > 13 && c.JID[len(c.JID)-13:] == "@s.whatsapp.net"` — the
final thirteen bytes are compared against the fifteen-byte literal
`"@s.whatsapp.net"`. -/
def Chat.IsContact (c : Chat) : Bool :=
  decide (13 < c.JID.length) &&
    decide (c.JID.data.drop (c.JID.length - 13) = "@s.whatsapp.net".data)

/-- Struct `Message` from `pkg/database/models.go`.  Timestamps are integers,
blobs are byte lists. -/
structure Message where
  ID : String
  ChatJID : String
  Sender : String
  Content : String
  Timestamp : Int
  IsFromMe : Bool
  MediaType : String
  Filename : String
  URL : String
  MediaKey : List Nat
  FileSHA256 : List Nat
  FileEncSHA256 : List Nat
  FileLength : Nat
deriving DecidableEq

/-- The database state behind `Store`: the two tables created by
`initTables`, each kept as a list of rows in rowid order (SQLite
assigns fresh, increasing rowids, and `INSERT OR REPLACE` deletes the
conflicting row and appends a fresh one). -/
structure StoreState where
  chats : List Chat
  messages : List Message
deriving DecidableEq

/-- The store errors the claims distinguish.  The connection string
sets `_foreign_keys=on`, so the `FOREIGN KEY (chat_jid) REFERENCES
chats(jid)` constraint of `initTables` is enforced. -/
inductive StoreError where
  | foreignKeyViolation
deriving DecidableEq

/-- Go `Store.StoreChat`: `INSERT OR REPLACE INTO chats` keyed by the
primary key `jid` — any row with the same `jid` is removed and the new
row appended. -/
def StoreChat (s : StoreState) (c : Chat) : StoreState :=
  { s with chats := (s.chats.filter fun r => decide (r.JID ≠ c.JID)) ++ [c] }

/-- Go `Store.StoreMessage`: returns `nil` with no write when both
`Content` and `MediaType` are empty; otherwise `INSERT OR REPLACE INTO
messages` keyed by the composite primary key `(id, chat_jid)`, which
fails with a foreign-key violation when `chat_jid` matches no row of
`chats`. -/
def StoreMessage (s : StoreState) (m : Message) : Except StoreError StoreState :=
  if m.Content = "" ∧ m.MediaType = "" then .ok s
  else if s.chats.any fun c => decide (c.JID = m.ChatJID) then
    .ok { s with
          messages :=
            (s.messages.filter fun r => decide ((r.ID, r.ChatJID) ≠ (m.ID, m.ChatJID))) ++ [m] }
  else .error .foreignKeyViolation

/-- Insert `a` into a list already sorted by `key` descending, after
every element whose key is `≥ key a` — the stable descending insertion
step. -/
def insertDescBy (key : α → Int) (a : α) : List α → List α
  | [] => [a]
  | x :: xs => if key a < key x then x :: insertDescBy key a xs else a :: x :: xs

/-- Stable sort by `key` descending: `ORDER BY key DESC` over rows in
rowid order.  SQLite fixes no relative order for rows with equal keys;
this embedding realises one admissible outcome, table (rowid) order
among ties. -/
def sortDescBy (key : α → Int) : List α → List α
  | [] => []
  | x :: xs => insertDescBy key x (sortDescBy key xs)

/-- Go `Store.GetMessages`: rows of `messages` with the given `chat_jid`,
`ORDER BY timestamp DESC`, then `OFFSET`/`LIMIT`. -/
def GetMessages (s : StoreState) (chatJID : String) (limit offset : Nat) : List Message :=
  ((sortDescBy (·.Timestamp)
      (s.messages.filter fun m => decide (m.ChatJID = chatJID))).drop offset).take limit

/-- Go `Store.GetChats`: all chats, `ORDER BY last_message_time DESC`,
then `OFFSET`/`LIMIT`. -/
def GetChats (s : StoreState) (limit offset : Nat) : List Chat :=
  ((sortDescBy (·.LastMessageTime) s.chats).drop offset).take limit

/-- A write operation against the store. -/
inductive Op where
  | chat (c : Chat)
  | msg (m : Message)

/-- Apply one write; a failed `StoreMessage` leaves the state as it
was. -/
def applyOp (s : StoreState) : Op → StoreState
  | .chat c => StoreChat s c
  | .msg m =>
      match StoreMessage s m with
      | .ok s' => s'
      | .error _ => s

/-- Run a sequence of writes against the freshly initialised (empty)
store. -/
def runOps (ops : List Op) : StoreState :=
  ops.foldl applyOp ⟨[], []⟩

/-- Key invariant of `chats`: `jid` is the primary key, so no two rows
share it. -/
def chatKeysNodup (s : StoreState) : Prop :=
  (s.chats.map (·.JID)).Nodup

/-- Key invariant of `messages`: `(id, chat_jid)` is the primary key,
so no two rows share the pair. -/
def msgKeysNodup (s : StoreState) : Prop :=
  (s.messages.map fun m => (m.ID, m.ChatJID)).Nodup

/-- Upserting by key preserves key distinctness: removing every row
carrying the new row's key and appending the new row keeps the mapped
keys `Nodup`. -/
theorem nodup_upsertBy {α κ : Type} [DecidableEq κ] (key : α → κ) (l : List α) (a : α)
    (hn : (l.map key).Nodup) :
    (((l.filter fun r => decide (key r ≠ key a)) ++ [a]).map key).Nodup := by
  have hsub : List.Sublist ((l.filter fun r => decide (key r ≠ key a)).map key) (l.map key) :=
    (List.filter_sublist l).map key
  have h1 : ((l.filter fun r => decide (key r ≠ key a)).map key).Nodup := hn.sublist hsub
  have h2 : key a ∉ (l.filter fun r => decide (key r ≠ key a)).map key := by
    intro hmem
    rcases List.mem_map.mp hmem with ⟨r, hr, hkey⟩
    have hne := List.of_mem_filter hr
    simp only [decide_eq_true_eq] at hne
    exact hne hkey
  simp only [List.map_append, List.map_cons, List.map_nil]
  rw [List.nodup_append]
  exact ⟨h1, List.nodup_singleton _, by simp only [List.disjoint_singleton]; exact h2⟩

/-- In a table whose mapped keys are `Nodup`, filtering away an
existing key removes exactly one row. -/
theorem length_filter_ne_key {α κ : Type} [DecidableEq κ] (key : α → κ) (l : List α) (k : κ)
    (hn : (l.map key).Nodup) (hm : k ∈ l.map key) :
    (l.filter fun r => decide (key r ≠ k)).length + 1 = l.length := by
  induction l with
  | nil => simp at hm
  | cons x xs ih =>
      simp only [List.map_cons, List.nodup_cons] at hn
      rcases hn with ⟨hx, hxs⟩
      by_cases hk : key x = k
      · subst hk
        have hall : xs.filter (fun r => decide (key r ≠ key x)) = xs := by
          apply List.filter_eq_self.mpr
          intro r hr
          have hne : key r ≠ key x := fun he => hx (he ▸ List.mem_map_of_mem key hr)
          simpa using hne
        rw [List.filter_cons, if_neg (by simp : ¬ ((decide (key x ≠ key x)) = true)), hall]
        simp
      · have hm' : k ∈ xs.map key := by
          rcases List.mem_map.mp hm with ⟨r, hrm, hkey⟩
          rcases List.mem_cons.mp hrm with rfl | hr2
          · exact absurd hkey hk
          · exact hkey ▸ List.mem_map_of_mem key hr2
        have ihh := ih hxs hm'
        have hpx : (decide (key x ≠ k)) = true := by simp [hk]
        simp only [List.filter_cons, hpx, if_true, List.length_cons]
        omega

/-- Each write preserves the two primary-key invariants. -/
theorem inv_applyOp {s : StoreState} (h1 : chatKeysNodup s) (h2 : msgKeysNodup s) (op : Op) :
    chatKeysNodup (applyOp s op) ∧ msgKeysNodup (applyOp s op) := by
  cases op with
  | chat c =>
      refine ⟨?_, h2⟩
      show (((s.chats.filter fun r => decide (r.JID ≠ c.JID)) ++ [c]).map (·.JID)).Nodup
      exact nodup_upsertBy (fun r : Chat => r.JID) s.chats c h1
  | msg m =>
      by_cases he : m.Content = "" ∧ m.MediaType = ""
      · simp only [applyOp, StoreMessage, if_pos he]
        exact ⟨h1, h2⟩
      · by_cases hc : (s.chats.any fun c => decide (c.JID = m.ChatJID)) = true
        · simp only [applyOp, StoreMessage, if_neg he, if_pos hc]
          refine ⟨h1, ?_⟩
          show (((s.messages.filter
              fun r => decide ((r.ID, r.ChatJID) ≠ (m.ID, m.ChatJID))) ++ [m]).map
              fun r => (r.ID, r.ChatJID)).Nodup
          exact nodup_upsertBy (fun r : Message => (r.ID, r.ChatJID)) s.messages m h2
        · simp only [applyOp, StoreMessage, if_neg he, if_neg hc]
          exact ⟨h1, h2⟩

/-- Folding any sequence of writes over a state satisfying the
primary-key invariants lands in a state satisfying them. -/
theorem inv_foldl (ops : List Op) :
    ∀ s : StoreState, chatKeysNodup s → msgKeysNodup s →
      chatKeysNodup (ops.foldl applyOp s) ∧ msgKeysNodup (ops.foldl applyOp s) := by
  induction ops with
  | nil => exact fun s h1 h2 => ⟨h1, h2⟩
  | cons op ops ih =>
      intro s h1 h2
      have h := inv_applyOp h1 h2 op
      exact ih _ h.1 h.2

/-- Every character of a segment produced by `splitSlashAux` comes from
the path or from the pending accumulator. -/
theorem mem_splitSlashAux (p : List Char) :
    ∀ acc s c, s ∈ splitSlashAux p acc → c ∈ s → c ∈ p ∨ c ∈ acc := by
  induction p with
  | nil =>
      intro acc s c hs hc
      simp only [splitSlashAux, List.mem_singleton] at hs
      subst hs
      exact Or.inr (List.mem_reverse.mp hc)
  | cons x rest ih =>
      intro acc s c hs hc
      simp only [splitSlashAux] at hs
      by_cases hx : x = '/'
      · rw [if_pos hx] at hs
        rcases List.mem_cons.mp hs with rfl | hs2
        · exact Or.inr (List.mem_reverse.mp hc)
        · rcases ih [] s c hs2 hc with h | h
          · exact Or.inl (List.mem_cons_of_mem x h)
          · simp at h
      · rw [if_neg hx] at hs
        rcases ih (x :: acc) s c hs hc with h | h
        · exact Or.inl (List.mem_cons_of_mem x h)
        · rcases List.mem_cons.mp h with rfl | h2
          · exact Or.inl (List.mem_cons_self c rest)
          · exact Or.inr h2

/-- Every character of `joinSegs L` comes from a segment of `L` or is
the separator `'/'`. -/
theorem mem_joinSegs (L : List (List Char)) (c : Char) (hc : c ∈ joinSegs L) :
    (∃ s ∈ L, c ∈ s) ∨ c = '/' := by
  induction L with
  | nil => simp [joinSegs] at hc
  | cons x rest ih =>
      cases rest with
      | nil =>
          refine Or.inl ⟨x, List.mem_cons_self x [], ?_⟩
          simpa [joinSegs] using hc
      | cons y ys =>
          simp only [joinSegs] at hc
          rcases List.mem_append.mp hc with h | h
          · exact Or.inl ⟨x, List.mem_cons_self _ _, h⟩
          · rcases List.mem_cons.mp h with rfl | h2
            · exact Or.inr rfl
            · rcases ih h2 with ⟨s, hsL, hcs⟩ | h3
              · exact Or.inl ⟨s, List.mem_cons_of_mem x hsL, hcs⟩
              · exact Or.inr h3

/-- Every segment kept by `cleanSegs` is a segment of the accumulator,
a segment of the input, or the literal `..` segment. -/
theorem mem_cleanSegs (rooted : Bool) (segs : List (List Char)) :
    ∀ acc s, s ∈ cleanSegs rooted acc segs → s ∈ acc ∨ s ∈ segs ∨ s = ['.', '.'] := by
  induction segs with
  | nil =>
      intro acc s hs
      simp only [cleanSegs] at hs
      exact Or.inl (List.mem_reverse.mp hs)
  | cons x cs ih =>
      intro acc s hs
      simp only [cleanSegs] at hs
      by_cases h1 : x = [] ∨ x = ['.']
      · rw [if_pos h1] at hs
        rcases ih acc s hs with h | h | h
        · exact Or.inl h
        · exact Or.inr (Or.inl (List.mem_cons_of_mem x h))
        · exact Or.inr (Or.inr h)
      · rw [if_neg h1] at hs
        by_cases h2 : x = ['.', '.']
        · rw [if_pos h2] at hs
          cases acc with
          | nil =>
              have hs' : s ∈ (if rooted = true then cleanSegs rooted [] cs
                  else cleanSegs rooted [x] cs) := hs
              by_cases hr : rooted = true
              · rw [if_pos hr] at hs'
                rcases ih [] s hs' with h | h | h
                · simp at h
                · exact Or.inr (Or.inl (List.mem_cons_of_mem x h))
                · exact Or.inr (Or.inr h)
              · rw [if_neg hr] at hs'
                rcases ih [x] s hs' with h | h | h
                · rw [List.mem_singleton] at h
                  exact Or.inr (Or.inr (h.trans h2))
                · exact Or.inr (Or.inl (List.mem_cons_of_mem x h))
                · exact Or.inr (Or.inr h)
          | cons a as =>
              have hs' : s ∈ (if a = ['.', '.'] then cleanSegs rooted (x :: a :: as) cs
                  else cleanSegs rooted as cs) := hs
              by_cases h3 : a = ['.', '.']
              · rw [if_pos h3] at hs'
                rcases ih (x :: a :: as) s hs' with h | h | h
                · rcases List.mem_cons.mp h with rfl | h4
                  · exact Or.inr (Or.inr h2)
                  · exact Or.inl h4
                · exact Or.inr (Or.inl (List.mem_cons_of_mem x h))
                · exact Or.inr (Or.inr h)
              · rw [if_neg h3] at hs'
                rcases ih as s hs' with h | h | h
                · exact Or.inl (List.mem_cons_of_mem a h)
                · exact Or.inr (Or.inl (List.mem_cons_of_mem x h))
                · exact Or.inr (Or.inr h)
        · rw [if_neg h2] at hs
          rcases ih (x :: acc) s hs with h | h | h
          · rcases List.mem_cons.mp h with rfl | h4
            · exact Or.inr (Or.inl (List.mem_cons_self _ _))
            · exact Or.inl h4
          · exact Or.inr (Or.inl (List.mem_cons_of_mem x h))
          · exact Or.inr (Or.inr h)

/-- Lexical cleaning introduces no characters beyond `'/'` and `'.'`:
every character of `cleanPath p` comes from `p` or is one of those. -/
theorem mem_cleanPath (p : List Char) (c : Char) (hc : c ∈ cleanPath p) :
    c ∈ p ∨ c = '/' ∨ c = '.' := by
  by_cases hp : p = []
  · subst hp
    have hc' : c ∈ (['.'] : List Char) := hc
    rw [List.mem_singleton] at hc'
    exact Or.inr (Or.inr hc')
  · simp only [cleanPath, if_neg hp] at hc
    by_cases hr : isAbsPath p = true
    · rw [if_pos hr] at hc
      rcases List.mem_cons.mp hc with rfl | hc2
      · exact Or.inr (Or.inl rfl)
      · rcases mem_joinSegs _ c hc2 with ⟨s, hsL, hcs⟩ | h
        · rcases mem_cleanSegs _ _ [] s hsL with h | h | h
          · simp at h
          · rcases mem_splitSlashAux p [] s c h hcs with h2 | h2
            · exact Or.inl h2
            · simp at h2
          · subst h
            rcases List.mem_cons.mp hcs with rfl | h3
            · exact Or.inr (Or.inr rfl)
            · rw [List.mem_singleton] at h3
              exact Or.inr (Or.inr h3)
        · exact Or.inr (Or.inl h)
    · rw [if_neg hr] at hc
      by_cases hempty : cleanSegs (isAbsPath p) [] (splitSlash p) = []
      · rw [if_pos hempty, List.mem_singleton] at hc
        exact Or.inr (Or.inr hc)
      · rw [if_neg hempty] at hc
        rcases mem_joinSegs _ c hc with ⟨s, hsL, hcs⟩ | h
        · rcases mem_cleanSegs _ _ [] s hsL with h | h | h
          · simp at h
          · rcases mem_splitSlashAux p [] s c h hcs with h2 | h2
            · exact Or.inl h2
            · simp at h2
          · subst h
            rcases List.mem_cons.mp hcs with rfl | h3
            · exact Or.inr (Or.inr rfl)
            · rw [List.mem_singleton] at h3
              exact Or.inr (Or.inr h3)
        · exact Or.inr (Or.inl h)

/-- The null byte is not among the characters cleaning can introduce,
so a null-free path stays null-free after cleaning. -/
theorem nullByte_not_mem_cleanPath {p : List Char} (h : '\x00' ∉ p) :
    '\x00' ∉ cleanPath p := by
  intro hc
  rcases mem_cleanPath p _ hc with h1 | h1 | h1
  · exact h h1
  · exact absurd h1 (by decide)
  · exact absurd h1 (by decide)

/-- Cleaning a rooted path yields a rooted path. -/
theorem cleanPath_isAbs (p : List Char) (h : isAbsPath p = true) :
    isAbsPath (cleanPath p) = true := by
  have hp : p ≠ [] := by
    intro e
    subst e
    simp [isAbsPath] at h
  have hcp : cleanPath p = '/' :: joinSegs (cleanSegs (isAbsPath p) [] (splitSlash p)) := by
    simp only [cleanPath, if_neg hp]
    rw [if_pos h]
  rw [hcp]
  rfl

/-- A traversal substring in the cleaned form forces the traversal
error. -/
theorem validateFilePath_traversal (cwd p : List Char)
    (h : hasDotDot (cleanPath p) = true) :
    ValidateFilePath cwd p = .error .traversal := by
  have hp : p ≠ [] := by
    intro e
    subst e
    exact absurd h (by decide)
  simp only [ValidateFilePath, if_neg hp]
  rw [if_pos h]

/-- A null byte in the resolved absolute form forces a failure. -/
theorem validateFilePath_nullByte (cwd p : List Char)
    (h : '\x00' ∈ absPath cwd (cleanPath p)) :
    ValidateFilePath cwd p ≠ .ok () := by
  intro hok
  by_cases hp : p = []
  · subst hp
    simp only [ValidateFilePath, if_pos rfl] at hok
    cases hok
  · simp only [ValidateFilePath, if_neg hp] at hok
    by_cases hdd : hasDotDot (cleanPath p) = true
    · rw [if_pos hdd] at hok
      cases hok
    · rw [if_neg hdd] at hok
      have hcont : (absPath cwd (cleanPath p)).contains '\x00' = true := by
        simpa using h
      rw [if_pos hcont] at hok
      cases hok

/-- An absolute path whose cleaned form is traversal-free and that
contains no null byte passes validation; nothing about the filesystem
enters the result. -/
theorem validateFilePath_ok (cwd p : List Char) (habs : isAbsPath p = true)
    (hdd : hasDotDot (cleanPath p) = false) (hnull : '\x00' ∉ p) :
    ValidateFilePath cwd p = .ok () := by
  have hp : p ≠ [] := by
    intro e
    subst e
    simp [isAbsPath] at habs
  have h1 : '\x00' ∉ cleanPath p := nullByte_not_mem_cleanPath hnull
  have h2 : '\x00' ∉ cleanPath (cleanPath p) := nullByte_not_mem_cleanPath h1
  have habs' : isAbsPath (cleanPath p) = true := cleanPath_isAbs p habs
  have habseq : absPath cwd (cleanPath p) = cleanPath (cleanPath p) := by
    simp only [absPath]
    rw [if_pos habs']
  have hcont : (absPath cwd (cleanPath p)).contains '\x00' = false := by
    rw [habseq]
    simpa using h2
  simp only [ValidateFilePath, if_neg hp]
  rw [if_neg (by rw [hdd]; exact Bool.false_ne_true), if_neg (by rw [hcont]; exact Bool.false_ne_true)]

/-- Taking `takeWhile` over a block that satisfies the predicate followed by a
failing character takes exactly the block. -/
theorem takeWhile_all_append (p : Char → Bool) (a : List Char) (x : Char) (r : List Char)
    (ha : a.all p = true) (hx : p x = false) :
    ((a ++ x :: r).takeWhile p) = a := by
  induction a with
  | nil => simp [List.takeWhile_cons, hx]
  | cons y ys ih =>
      simp only [List.all_cons, Bool.and_eq_true] at ha
      simp [List.takeWhile_cons, ha.1, ih ha.2]

/-- Taking `dropWhile` over a block that satisfies the predicate followed by a
failing character drops exactly the block. -/
theorem dropWhile_all_append (p : Char → Bool) (a : List Char) (x : Char) (r : List Char)
    (ha : a.all p = true) (hx : p x = false) :
    ((a ++ x :: r).dropWhile p) = x :: r := by
  induction a with
  | nil => simp [List.dropWhile_cons, hx]
  | cons y ys ih =>
      simp only [List.all_cons, Bool.and_eq_true] at ha
      simp [List.dropWhile_cons, ha.1, ih ha.2]

/-- Method `Chat.IsGroup` can never return `true`: the compared slice has six
characters while `"@g.us"` has five. -/
theorem chat_isGroup_eq_false (c : Chat) : c.IsGroup = false := by
  by_cases h6 : 6 < c.JID.length
  · have hne : c.JID.data.drop (c.JID.length - 6) ≠ "@g.us".data := by
      intro h
      have hl := congrArg List.length h
      rw [List.length_drop] at hl
      have h5 : ("@g.us".data).length = 5 := by decide
      rw [h5] at hl
      have hsl : c.JID.length = c.JID.data.length := rfl
      omega
    simp [Chat.IsGroup, decide_eq_false hne]
  · simp [Chat.IsGroup, h6]

/-- Method `Chat.IsContact` can never return `true`: the compared slice has
thirteen characters while `"@s.whatsapp.net"` has fifteen. -/
theorem chat_isContact_eq_false (c : Chat) : c.IsContact = false := by
  have hne : c.JID.data.drop (c.JID.length - 13) ≠ "@s.whatsapp.net".data := by
    intro h
    have hl := congrArg List.length h
    rw [List.length_drop] at hl
    have h15 : ("@s.whatsapp.net".data).length = 15 := by decide
    rw [h15] at hl
    have hsl : c.JID.length = c.JID.data.length := rfl
    omega
  simp [Chat.IsContact, decide_eq_false hne]

/-- A message fixture: fields not under test are empty/zero. -/
def mkMsg (id chatJID content : String) (ts : Int) : Message :=
  ⟨id, chatJID, "", content, ts, false, "", "", "", [], [], [], 0⟩

/-- A group chat row used by the tie-order scenario. -/
def tieChat : Chat := ⟨"123456789-123456789@g.us", "T", 0⟩

/-- First of two messages sharing one timestamp. -/
def tieMsgA : Message := mkMsg "a" "123456789-123456789@g.us" "hello" 5

/-- Second of two messages sharing one timestamp. -/
def tieMsgB : Message := mkMsg "b" "123456789-123456789@g.us" "world" 5

/-- A message with empty content and media type whose chat does not
exist. -/
def orphanEmptyMsg : Message := mkMsg "m0" "unknown@s.whatsapp.net" "" 1

/-- A message with content whose chat does not exist. -/
def fkDemoMsg : Message := mkMsg "m1" "unknown@s.whatsapp.net" "hi" 1

/-- A chat row for the upsert scenarios. -/
def demoChatRow : Chat := ⟨"1234567890@s.whatsapp.net", "A", 1⟩

/-- The same chat key with a different name and time. -/
def demoChatRow2 : Chat := ⟨"1234567890@s.whatsapp.net", "B", 2⟩

/-- An empty-content message addressed to an existing chat. -/
def emptyDemoMsg : Message := mkMsg "m2" "1234567890@s.whatsapp.net" "" 3

/-- A stored message for the re-delivery scenario. -/
def demoStoredMsg : Message := mkMsg "m1" "1234567890@s.whatsapp.net" "hi" 1

/-- A re-delivery of `demoStoredMsg` with fresh content. -/
def demoStoredMsg2 : Message := mkMsg "m1" "1234567890@s.whatsapp.net" "hi again" 2

/-- A one-chat, one-message store state. -/
def demoState : StoreState := ⟨[demoChatRow], [demoStoredMsg]⟩

/-- C1: over identities accepted by `ValidateJID`, exactly one of the
chat classifiers is supposed to hold — in particular `IsContact` on
`1234567890@s.whatsapp.net` — but in the code both classifiers are
identically false: `IsGroup` compares the final six characters with the
five-character literal `"@g.us"` and `IsContact` the final thirteen
with the fifteen-character literal `"@s.whatsapp.net"`, comparisons no
string satisfies.  The repository's own tests (`TestChatIsGroup`,
`TestChatIsContact`) expect `true` on these inputs. -/
theorem claim1_classifiers_never_hold :
    ValidateJID "1234567890@s.whatsapp.net" = true ∧
    Chat.IsContact ⟨"1234567890@s.whatsapp.net", "", 0⟩ = false ∧
    ValidateJID "123456789-123456789@g.us" = true ∧
    Chat.IsGroup ⟨"123456789-123456789@g.us", "", 0⟩ = false ∧
    (∀ c : Chat, c.IsContact = false) ∧
    (∀ c : Chat, c.IsGroup = false) :=
  ⟨by decide, by decide, by decide, by decide,
    chat_isContact_eq_false, chat_isGroup_eq_false⟩

/-- C2: `GetMessages` orders by timestamp only; among equal timestamps
the order is the engine's scan order, not a function of the unique key
`(id, chat_jid)`.  Two insertion orders of the same two tied rows yield
the same row set but opposite result sequences, so no key-determined
tie order exists. -/
theorem claim2_tie_order_not_key_determined :
    (runOps [.chat tieChat, .msg tieMsgB, .msg tieMsgA]).messages = [tieMsgB, tieMsgA] ∧
    (runOps [.chat tieChat, .msg tieMsgA, .msg tieMsgB]).messages = [tieMsgA, tieMsgB] ∧
    tieMsgA.Timestamp = tieMsgB.Timestamp ∧
    (GetMessages (runOps [.chat tieChat, .msg tieMsgB, .msg tieMsgA])
        "123456789-123456789@g.us" 10 0).map (·.ID) = ["b", "a"] ∧
    (GetMessages (runOps [.chat tieChat, .msg tieMsgA, .msg tieMsgB])
        "123456789-123456789@g.us" 10 0).map (·.ID) = ["a", "b"] := by
  refine ⟨rfl, rfl, rfl, by decide, by decide⟩

/-- C3 counterexample: a message whose `chat_jid` matches no chat row
but whose content and media type are both empty is accepted as a
silent no-op — `StoreMessage` returns success, not a foreign-key
violation. -/
theorem claim3_counterexample :
    orphanEmptyMsg.ChatJID = "unknown@s.whatsapp.net" ∧
    (⟨[], []⟩ : StoreState).chats = [] ∧
    StoreMessage ⟨[], []⟩ orphanEmptyMsg = .ok ⟨[], []⟩ :=
  ⟨rfl, rfl, by rfl⟩

/-- C3 (amended): for every message that carries content or a media
type, storing it against a state whose chats lack its `chat_jid` fails
with a foreign-key violation and leaves the state unchanged. -/
theorem claim3_fk_violation (s : StoreState) (m : Message)
    (hcm : m.Content ≠ "" ∨ m.MediaType ≠ "")
    (hjid : ∀ c ∈ s.chats, c.JID ≠ m.ChatJID) :
    StoreMessage s m = .error .foreignKeyViolation ∧ applyOp s (.msg m) = s := by
  have he : ¬(m.Content = "" ∧ m.MediaType = "") := by tauto
  have hany : (s.chats.any fun c => decide (c.JID = m.ChatJID)) = false := by
    rw [Bool.eq_false_iff]
    intro hA
    rcases List.any_eq_true.mp hA with ⟨c, hc, hdec⟩
    exact hjid c hc (of_decide_eq_true hdec)
  have h1 : StoreMessage s m = .error .foreignKeyViolation := by
    simp only [StoreMessage, if_neg he]
    rw [if_neg (by rw [hany]; exact Bool.false_ne_true)]
  refine ⟨h1, ?_⟩
  simp [applyOp, h1]

/-- C3 witness: the amended theorem at a concrete input. -/
theorem claim3_witness :
    StoreMessage ⟨[], []⟩ fkDemoMsg = .error .foreignKeyViolation ∧
      applyOp ⟨[], []⟩ (.msg fkDemoMsg) = ⟨[], []⟩ :=
  claim3_fk_violation ⟨[], []⟩ fkDemoMsg (Or.inl (by decide))
    (fun c hc => absurd hc (List.not_mem_nil c))

/-- C4: a message with empty content and unset media type is a silent
no-op: `StoreMessage` succeeds, writes nothing, and returns the state
unchanged, so the row count of every chat is unaffected. -/
theorem claim4_empty_message_noop (s : StoreState) (m : Message)
    (hc : m.Content = "") (hm : m.MediaType = "") :
    StoreMessage s m = .ok s := by
  simp only [StoreMessage, if_pos (And.intro hc hm)]

/-- C4 witness: the theorem at a concrete state and message. -/
theorem claim4_witness :
    StoreMessage ⟨[demoChatRow], []⟩ emptyDemoMsg = .ok ⟨[demoChatRow], []⟩ :=
  claim4_empty_message_noop _ emptyDemoMsg rfl rfl

/-- C5: every sequence of store writes from the fresh store keeps
`jid` unique in `chats` and `(id, chat_jid)` unique in `messages`;
re-running `StoreChat` on an existing `jid` replaces the row (count
unchanged, new row present), and re-running `StoreMessage` on an
existing `(id, chat_jid)` (for a message that passes the
content/media guard against an existing chat) replaces the row. -/
theorem claim5_key_invariants :
    (∀ ops : List Op, chatKeysNodup (runOps ops) ∧ msgKeysNodup (runOps ops)) ∧
    (∀ (s : StoreState) (c : Chat), chatKeysNodup s → c.JID ∈ s.chats.map (·.JID) →
        (StoreChat s c).chats.length = s.chats.length ∧ c ∈ (StoreChat s c).chats) ∧
    (∀ (s : StoreState) (m : Message), msgKeysNodup s →
        ¬(m.Content = "" ∧ m.MediaType = "") →
        (s.chats.any fun c => decide (c.JID = m.ChatJID)) = true →
        (m.ID, m.ChatJID) ∈ s.messages.map (fun r => (r.ID, r.ChatJID)) →
        ∃ s', StoreMessage s m = .ok s' ∧ s'.messages.length = s.messages.length ∧
          m ∈ s'.messages) := by
  refine ⟨?_, ?_, ?_⟩
  · intro ops
    exact inv_foldl ops ⟨[], []⟩ (by simp [chatKeysNodup]) (by simp [msgKeysNodup])
  · intro s c hn hm
    constructor
    · show ((s.chats.filter fun r => decide (r.JID ≠ c.JID)) ++ [c]).length = s.chats.length
      rw [List.length_append]
      have h := length_filter_ne_key (fun r : Chat => r.JID) s.chats c.JID hn hm
      simpa using h
    · show c ∈ (s.chats.filter fun r => decide (r.JID ≠ c.JID)) ++ [c]
      exact List.mem_append_right _ (List.mem_singleton.mpr rfl)
  · intro s m hn he hc hm
    refine ⟨{ s with messages :=
        (s.messages.filter fun r => decide ((r.ID, r.ChatJID) ≠ (m.ID, m.ChatJID))) ++ [m] },
      ?_, ?_, ?_⟩
    · simp only [StoreMessage, if_neg he]
      rw [if_pos hc]
    · show ((s.messages.filter
          fun r => decide ((r.ID, r.ChatJID) ≠ (m.ID, m.ChatJID))) ++ [m]).length =
        s.messages.length
      rw [List.length_append]
      have h := length_filter_ne_key (fun r : Message => (r.ID, r.ChatJID)) s.messages
        (m.ID, m.ChatJID) hn hm
      simpa using h
    · show m ∈ (s.messages.filter
          fun r => decide ((r.ID, r.ChatJID) ≠ (m.ID, m.ChatJID))) ++ [m]
      exact List.mem_append_right _ (List.mem_singleton.mpr rfl)

/-- C5 witness: the three parts at concrete inputs. -/
theorem claim5_witness :
    (chatKeysNodup (runOps [.chat demoChatRow]) ∧ msgKeysNodup (runOps [.chat demoChatRow])) ∧
    ((StoreChat demoState demoChatRow2).chats.length = demoState.chats.length ∧
      demoChatRow2 ∈ (StoreChat demoState demoChatRow2).chats) ∧
    (∃ s', StoreMessage demoState demoStoredMsg2 = .ok s' ∧
      s'.messages.length = demoState.messages.length ∧ demoStoredMsg2 ∈ s'.messages) :=
  ⟨claim5_key_invariants.1 [.chat demoChatRow],
   claim5_key_invariants.2.1 demoState demoChatRow2
     (show (demoState.chats.map (·.JID)).Nodup by decide) (by decide),
   claim5_key_invariants.2.2 demoState demoStoredMsg2
     (show (demoState.messages.map fun m => (m.ID, m.ChatJID)).Nodup by decide)
     (by decide) (by decide) (by decide)⟩

/-- C6: pagination composes — a window of `N` from offset `0` followed
by a window of `M` from offset `N` is the window of `N + M` from
offset `0`, on any fixed state. -/
theorem claim6_pagination_composes (s : StoreState) (chatJID : String) (N M : Nat) :
    GetMessages s chatJID N 0 ++ GetMessages s chatJID M N =
      GetMessages s chatJID (N + M) 0 := by
  simp only [GetMessages, List.drop_zero]
  exact (List.take_add _ N M).symm

/-- C7 counterexample: the path `/a<NUL>/../b` contains a null byte,
yet validation accepts it — lexical cleaning cancels the segment
carrying the null byte, so the check on the absolute form never sees
it. -/
theorem claim7_counterexample :
    '\x00' ∈ "/a\x00/../b".data ∧
      ValidateFilePath "/home".data "/a\x00/../b".data = .ok () :=
  ⟨by decide, by rfl⟩

/-- C7 (amended): `ValidateFilePath` fails on the empty path, on every
path whose cleaned form contains `..`, and on every path whose
resolved absolute form contains a null byte (a null byte erased by
cleaning does not cause failure); `../../../etc/passwd` fails; an
absolute, traversal-free, null-free path passes — no filesystem state
enters the verdict. -/
theorem claim7_path_validation :
    (∀ cwd : List Char, ValidateFilePath cwd [] = .error .emptyPath) ∧
    (∀ cwd p : List Char, hasDotDot (cleanPath p) = true →
        ValidateFilePath cwd p = .error .traversal) ∧
    (∀ cwd p : List Char, '\x00' ∈ absPath cwd (cleanPath p) →
        ValidateFilePath cwd p ≠ .ok ()) ∧
    ValidateFilePath "/home".data "../../../etc/passwd".data = .error .traversal ∧
    (∀ cwd p : List Char, isAbsPath p = true → hasDotDot (cleanPath p) = false →
        '\x00' ∉ p → ValidateFilePath cwd p = .ok ()) :=
  ⟨fun _ => rfl, validateFilePath_traversal, validateFilePath_nullByte, by rfl,
   validateFilePath_ok⟩

/-- C7 witness: each clause of the amended theorem at a concrete
input. -/
theorem claim7_witness :
    ValidateFilePath "/home".data [] = .error .emptyPath ∧
    ValidateFilePath "/home".data "../secret".data = .error .traversal ∧
    ValidateFilePath "/home".data "/dev/null\x00".data ≠ .ok () ∧
    ValidateFilePath "/home".data "/tmp/test.txt".data = .ok () :=
  ⟨claim7_path_validation.1 _,
   claim7_path_validation.2.1 _ _ (by decide),
   claim7_path_validation.2.2.1 _ _ (by decide),
   claim7_path_validation.2.2.2.2 _ _ (by decide) (by decide) (by decide)⟩

/-- C8: recipient validation accepts exactly the bare 10–15 digit
phone form or anything `ValidateJID` accepts, and `ValidateJID`
accepts exactly the two structured forms; the spec's example strings
behave as listed. -/
theorem claim8_recipient_forms :
    (∀ r : String, ValidateRecipient r = (phoneMatch r.data || ValidateJID r)) ∧
    (∀ j : String, ValidateJID j = (phoneJIDMatch j.data || groupJIDMatch j.data)) ∧
    ValidateRecipient "1234567890" = true ∧
    ValidateRecipient "123456789-123456789@g.us" = true ∧
    ValidateJID "123456789-123456789@g.us" = true ∧
    ValidateRecipient "" = false ∧
    ValidateJID "" = false ∧
    ValidateRecipient "invalid" = false ∧
    ValidateJID "invalid" = false := by
  refine ⟨?_, ?_, by decide, by decide, by decide, by decide, by decide, by decide, by decide⟩
  · intro r
    by_cases h : r = ""
    · subst h
      decide
    · simp only [ValidateRecipient, ValidatePhoneNumber, if_neg h]
  · intro j
    by_cases h : j = ""
    · subst h
      decide
    · simp only [ValidateJID, if_neg h]

/-- C9: the user-domain form is accepted only with a 10–15 digit
prefix — `123456789@s.whatsapp.net` (nine digits) is rejected — while
the group form accepts any nonzero digit runs on both sides of the
hyphen, e.g. `1-2@g.us`. -/
theorem claim9_jid_digit_bounds :
    ValidateJID "123456789@s.whatsapp.net" = false ∧
    ValidateJID "1-2@g.us" = true ∧
    (∀ s : List Char, phoneJIDMatch s = true →
        10 ≤ (s.takeWhile Char.isDigit).length ∧ (s.takeWhile Char.isDigit).length ≤ 15) ∧
    (∀ a b : List Char, a ≠ [] → b ≠ [] → a.all Char.isDigit = true →
        b.all Char.isDigit = true →
        groupJIDMatch (a ++ '-' :: (b ++ "@g.us".data)) = true) := by
  refine ⟨by decide, by decide, ?_, ?_⟩
  · intro s h
    simp only [phoneJIDMatch, Bool.and_eq_true, decide_eq_true_eq] at h
    exact ⟨h.1.1, h.1.2⟩
  · intro a b ha hb hda hdb
    have hdash : Char.isDigit '-' = false := by decide
    have hat : Char.isDigit '@' = false := by decide
    have ht1 : ((a ++ '-' :: (b ++ "@g.us".data)).takeWhile Char.isDigit) = a :=
      takeWhile_all_append _ a '-' _ hda hdash
    have hd1 : ((a ++ '-' :: (b ++ "@g.us".data)).dropWhile Char.isDigit) =
        '-' :: (b ++ "@g.us".data) :=
      dropWhile_all_append _ a '-' _ hda hdash
    have hbsplit : b ++ "@g.us".data = b ++ '@' :: "g.us".data := rfl
    have ht2 : ((b ++ "@g.us".data).takeWhile Char.isDigit) = b := by
      rw [hbsplit]
      exact takeWhile_all_append _ b '@' _ hdb hat
    have hd2 : ((b ++ "@g.us".data).dropWhile Char.isDigit) = '@' :: "g.us".data := by
      rw [hbsplit]
      exact dropWhile_all_append _ b '@' _ hdb hat
    have hla : 1 ≤ a.length := List.length_pos.mpr ha
    have hlb : 1 ≤ b.length := List.length_pos.mpr hb
    simp [groupJIDMatch, ht1, hd1, ht2, hd2, hla, hlb]

/-- C9 witness: the two universal clauses at concrete inputs. -/
theorem claim9_witness :
    (10 ≤ ("1234567890@s.whatsapp.net".data.takeWhile Char.isDigit).length ∧
      ("1234567890@s.whatsapp.net".data.takeWhile Char.isDigit).length ≤ 15) ∧
    groupJIDMatch (['1'] ++ '-' :: (['2'] ++ "@g.us".data)) = true :=
  ⟨claim9_jid_digit_bounds.2.2.1 _ (by decide),
   claim9_jid_digit_bounds.2.2.2 ['1'] ['2'] (by decide) (by decide) (by decide) (by decide)⟩

/-- C10: the traversal check is a substring check on the cleaned path:
any cleaned form containing `..` anywhere is rejected, including
`/tmp/report..pdf`, whose cleaned form has no parent-directory
segment at all. -/
theorem claim10_dotdot_substring :
    (∀ cwd p : List Char, hasDotDot (cleanPath p) = true →
        ValidateFilePath cwd p = .error .traversal) ∧
    hasDotDot (cleanPath "/tmp/report..pdf".data) = true ∧
    (¬ ∃ seg ∈ splitSlash (cleanPath "/tmp/report..pdf".data), seg = ['.', '.']) ∧
    ValidateFilePath "/home".data "/tmp/report..pdf".data = .error .traversal :=
  ⟨validateFilePath_traversal, by decide, by decide, by rfl⟩

/-- C10 witness: the universal clause at a concrete input. -/
theorem claim10_witness :
    ValidateFilePath "/srv".data "a..b".data = .error .traversal :=
  claim10_dotdot_substring.1 _ _ (by decide)

end WaBridge

namespace WaBridge

example : ValidateJID "1234567890@s.whatsapp.net" = true := by decide
example : ValidateJID "123456789@s.whatsapp.net" = false := by decide
example : ValidateJID "1-2@g.us" = true := by decide
example : ValidateJID "123456789-123456789@g.us" = true := by decide
example : ValidateJID "invalid" = false := by decide
example : ValidateRecipient "1234567890" = true := by decide
example : ValidateRecipient "" = false := by decide

example : cleanPath "/tmp/report..pdf".data = "/tmp/report..pdf".data := by decide
example : cleanPath "../../../etc/passwd".data = "../../../etc/passwd".data := by decide
example : cleanPath "/a/../b".data = "/b".data := by decide
example : ValidateFilePath "/home".data "/tmp/x.txt".data = .ok () := by rfl
example : ValidateFilePath "/home".data "../../../etc/passwd".data = .error .traversal := by
  rfl
example : ValidateFilePath "/home".data ("/dev/null".data ++ ['\x00']) = .error .nullByte := by
  rfl
example : ValidateFilePath "/home".data ("/a".data ++ '\x00' :: "/../b".data) = .ok () := by
  rfl
example : Chat.IsGroup ⟨"123456789-123456789@g.us", "", 0⟩ = false := by decide
example : Chat.IsContact ⟨"1234567890@s.whatsapp.net", "", 0⟩ = false := by decide

end WaBridge
